import Mathlib

/-!
Verification of the `Lean.Server.InfoUtils` module against its design document.

The authoritative source is the compiled module
`src/stage0/stdlib/Lean/Server/InfoUtils.c` (Lean compiler output for
`Lean.Server.InfoUtils`, importing `Init`, `Lean.DocString`,
`Lean.Elab.InfoTree`, `Lean.Util.Sorry`).  The definitions below are a shallow
embedding of that code: each definition carries a comment pointing at the C
symbol it embeds.  Conventions used throughout:

* `Std.PersistentArray InfoTree` (the children sequence of a node) is modelled
  by a cons-list `InfoTrees`; the only operations the module performs on it
  are `toList`, structure-preserving `mapM`, `foldlM` over the elements in
  order, `isEmpty` and `get! 0`, all of which depend only on the element list.
* `Array` values are modelled by Lean `Array`; the runtime primitives
  `lean_array_get` / `lean_array_swap` (panicking accessors, used in-bounds
  only) are modelled by `Array.getD` / `aswap` with the default constants the
  compiled code passes.
* machine loops that the compiler expressed with a decreasing counter are
  transcribed with an explicit structural fuel argument equal to the counter
  the compiled code uses, so that every definition is kernel-executable.
* `Option.get!` on `none` reduces to the `Inhabited` default (`0` for `Nat`),
  which is exactly the value `lean_panic_fn(l_instInhabitedNat, ..)` produces
  in the compiled code.
* Types defined outside this module (`Lean.Syntax` with `getPos?` /
  `getTailPos?` / `getKind`, `Lean.Expr` with `isSyntheticSorry`, the `Info`
  payload structures, `ContextInfo`) are not part of the source tree; they are
  modelled from the spec, as indicated on each such definition.
-/

namespace InfoUtils

/-- Modelled from the spec: syntax node kinds.  The module compares kinds for
equality against a fixed allow-list of literal / identifier / interpolation
kinds (`identKind`, `strLitKind`, `charLitKind`, `numLitKind`,
`scientificLitKind`, `nameLitKind`, `fieldIdxKind`, `interpolatedStrLitKind`,
`interpolatedStrKind`); all other kinds are collapsed into `other`. -/
inductive SyntaxKind where
  | identKind
  | strLitKind
  | charLitKind
  | numLitKind
  | scientificLitKind
  | nameLitKind
  | fieldIdxKind
  | interpolatedStrLitKind
  | interpolatedStrKind
  | other (n : Nat)
deriving DecidableEq

/-- Modelled from the spec: a syntax node, observed only through the position
accessors `pos_of(syntax, canonical_only)` / `tail_pos_of(syntax,
canonical_only)` and its kind.  With `canonical_only = true` only positions of
canonical (real source origin) tokens are reported, so synthetic syntax yields
`none`; with `canonical_only = false` the accessor may also report positions
coming from synthetic tokens, which can differ from the canonical answer.  The
four optional fields record the answers of the two accessors in the two
modes. -/
structure Syntax where
  kind : SyntaxKind
  posOrig : Option Nat
  tailPosOrig : Option Nat
  posRaw : Option Nat
  tailPosRaw : Option Nat
deriving DecidableEq

/-- Embeds `l_Lean_Syntax_getPos_x3f` as observed by this module (external to
the source tree; modelled from the spec as described on `Syntax`). -/
def Syntax.getPos? (stx : Syntax) (canonicalOnly : Bool) : Option Nat :=
  if canonicalOnly then stx.posOrig else stx.posRaw

/-- Embeds `l_Lean_Syntax_getTailPos_x3f` (external; modelled from the spec as
described on `Syntax`). -/
def Syntax.getTailPos? (stx : Syntax) (canonicalOnly : Bool) : Option Nat :=
  if canonicalOnly then stx.tailPosOrig else stx.tailPosRaw

/-- Embeds `l_Lean_Syntax_getKind` (external; modelled from the spec). -/
def Syntax.getKind (stx : Syntax) : SyntaxKind :=
  stx.kind

/-- Modelled from the spec: an elaborated expression, observed only through
the synthetic-placeholder test (the C code calls
`l_Lean_Expr_isSyntheticSorry`, from `Lean.Util`, not part of the source
tree). -/
structure Expr where
  syntheticPlaceholder : Bool
deriving DecidableEq

/-- The placeholder test the hover predicate applies to a term's expression
(the compiled code's call to the external `l_Lean_Expr_isSyntheticSorry`). -/
def Expr.isSyntheticPlaceholder (e : Expr) : Bool :=
  e.syntheticPlaceholder

/-- Modelled from the spec: the ambient elaboration context — opaque to this
module, which only moves it around. -/
structure ContextInfo where
  id : Nat
deriving DecidableEq

/-- Modelled from the spec: payload of a term-kind `Info` (constructor tag 1).
Field order mirrors the C code, which reads the expression at field index 1
and the syntax at field index 2. -/
structure TermInfo where
  lctx : Nat
  expr : Expr
  stx : Syntax
deriving DecidableEq

/-- Modelled from the spec: payload of a tactic-kind `Info` (constructor tag
0).  The C code reads the syntax at field index 2; the goal lists are opaque
payload for this module. -/
structure TacticInfo where
  mctxBefore : Nat
  goalsBefore : List Nat
  stx : Syntax
  mctxAfter : Nat
  goalsAfter : List Nat
deriving DecidableEq

/-- Modelled from the spec: payload of a command-kind `Info` (constructor tag
2); the C code reads the syntax at field index 1. -/
structure CommandInfo where
  elaborator : Nat
  stx : Syntax
deriving DecidableEq

/-- Modelled from the spec: payload of a field-access-kind `Info` (constructor
tag 3); the C code reads the syntax at field index 3. -/
structure FieldInfo where
  projName : Nat
  val : Expr
  lctx : Nat
  stx : Syntax
deriving DecidableEq

/-- The `Info` tagged union.  Constructor order matches the C tags:
0 = tactic, 1 = term, 2 = command, 3 = field (as dispatched by
`l_Lean_Elab_InfoTree_hoverableInfoAt_x3f_match__1___rarg` and
`l_Lean_Elab_Info_stx`). -/
inductive Info where
  | ofTacticInfo (i : TacticInfo)
  | ofTermInfo (i : TermInfo)
  | ofCommandInfo (i : CommandInfo)
  | ofFieldInfo (i : FieldInfo)
deriving DecidableEq

/-- Embeds `l_Lean_Elab_Info_stx` (C lines 1415..1440): each variant yields
the syntax node stored in its payload. -/
def Info.stx : Info → Syntax
  | .ofTacticInfo i => i.stx
  | .ofTermInfo i => i.stx
  | .ofCommandInfo i => i.stx
  | .ofFieldInfo i => i.stx

/-- Embeds `l_Lean_Elab_Info_pos_x3f`: `getPos?` of the info's syntax with
`canonicalOnly := true` (the C passes the constant `1`). -/
def Info.pos? (i : Info) : Option Nat :=
  i.stx.getPos? true

/-- Embeds `l_Lean_Elab_Info_tailPos_x3f`: `getTailPos?` of the info's syntax
with `canonicalOnly := true` (the C passes the constant `1`). -/
def Info.tailPos? (i : Info) : Option Nat :=
  i.stx.getTailPos? true

mutual
/-- The `InfoTree` tagged union.  Constructor order matches the C tags as
dispatched by `l_Lean_Elab_InfoTree_smallestNode_x3f`: 0 = `context`
(a `ContextInfo` wrapper around one child), 1 = `node` (an `Info` plus a
persistent array of children, modelled by `InfoTrees`), 2 = `hole`. -/
inductive InfoTree where
  | context (ctx : ContextInfo) (t : InfoTree) : InfoTree
  | node (info : Info) (children : InfoTrees) : InfoTree
  | hole (mvarId : Nat) : InfoTree
deriving DecidableEq

/-- Model of `Std.PersistentArray InfoTree` by its element list (see module
comment). -/
inductive InfoTrees where
  | nil : InfoTrees
  | cons (t : InfoTree) (ts : InfoTrees) : InfoTrees
deriving DecidableEq
end

/-- The element list of a children sequence (`l_Std_PersistentArray_toList`). -/
def InfoTrees.toList : InfoTrees → List InfoTree
  | .nil => []
  | .cons t ts => t :: ts.toList

mutual
/-- Embeds `l_Lean_Elab_InfoTree_smallestNode_x3f` (C lines 847..991).
`context` recurses into the child and rewraps a found result
(`Option.map (context ctx)`); `node` maps the search over all children
(`PersistentArray.mapM`, spec 1), collects the non-`none` results in order
(`PersistentArray.foldlM` pushing `some`-elements, specs 6..12) and returns
the first one (`get! 0`) if any, otherwise tests the predicate on the node's
own info, returning the node itself unchanged; `hole` is never a match. -/
def InfoTree.smallestNode? (p : Info → Bool) : InfoTree → Option InfoTree
  | .context ctx t =>
      (InfoTree.smallestNode? p t).map (InfoTree.context ctx)
  | .node i cs =>
      match (InfoTrees.mapSmallestNode? p cs).filterMap id with
      | r :: _ => some r
      | [] => if p i then some (.node i cs) else none
  | .hole _ => none

/-- The childwise search map of `smallestNode?` (the specialisation
`l_Std_PersistentArray_mapM___at_..._smallestNode_x3f___spec__1`). -/
def InfoTrees.mapSmallestNode? (p : Info → Bool) : InfoTrees → List (Option InfoTree)
  | .nil => []
  | .cons t ts => InfoTree.smallestNode? p t :: InfoTrees.mapSmallestNode? p ts
end

mutual
/-- Embeds `l_Lean_Elab_InfoTree_smallestNodes` (C lines 1280..1350).
`context` recurses into the child and maps the `context ctx` constructor over
every returned element (`l_List_map___at_..._smallestNodes___spec__1`);
`node` converts the children to a list, maps the search over them
(spec 2), joins the results and returns them when non-empty, otherwise tests
the predicate on the node's own info; `hole` yields the empty list. -/
def InfoTree.smallestNodes (p : Info → Bool) : InfoTree → List InfoTree
  | .context ctx t =>
      (InfoTree.smallestNodes p t).map (InfoTree.context ctx)
  | .node i cs =>
      let rs := (InfoTrees.mapSmallestNodes p cs).flatten
      if rs.isEmpty then (if p i then [.node i cs] else []) else rs
  | .hole _ => []

/-- The childwise search map of `smallestNodes` (the specialisation
`l_List_map___at_..._smallestNodes___spec__2` applied after
`PersistentArray.toList`). -/
def InfoTrees.mapSmallestNodes (p : Info → Bool) : InfoTrees → List (List InfoTree)
  | .nil => []
  | .cons t ts => InfoTree.smallestNodes p t :: InfoTrees.mapSmallestNodes p ts
end

/-- The width the ranking of `smallestInfo?` assigns to an info:
`tailPos?.get! - pos?.get!` (C lines 1600..1660, where a missing bound makes
`Option.get!` produce the panic default `l_instInhabitedNat = 0`). -/
def Info.candWidth (i : Info) : Nat :=
  i.tailPos?.get! - i.pos?.get!

/-- Embeds `l_List_filterMap___at_..._smallestInfo_x3f___spec__1` (C lines
1570..1820): keep exactly the results of shape `context ctx (node i _)`,
producing `(width, (ctx, i))`; results of any other shape are dropped. -/
def smallestInfoCandidates (p : Info → Bool) (t : InfoTree) :
    List (Nat × (ContextInfo × Info)) :=
  (t.smallestNodes p).filterMap fun x =>
    match x with
    | .context ctx (.node i _) => some (i.candWidth, (ctx, i))
    | _ => none

/-- Embeds `l_Array_getMax_x3f___at_..._smallestInfo_x3f___spec__2` together
with its `___lambda__1` (C lines 1823..1880): on a non-empty sequence, fold
from the second element with `fun best x => if x.1 < best.1 then x else best`
(the compiled comparison `lt best x = x.fst < best.fst`), i.e. keep the
first element whose first component is smallest. -/
def getMaxFst {α : Type} : List (Nat × α) → Option (Nat × α)
  | [] => none
  | a :: as => some (as.foldl (fun best x => if x.1 < best.1 then x else best) a)

/-- Embeds `l_Lean_Elab_InfoTree_smallestInfo_x3f` (C lines 1878..1961):
collect the deepest predicate matches, keep the context-wrapped nodes with
their widths, select with `getMaxFst` and return the `(ctx, info)` component
of the selected pair. -/
def InfoTree.smallestInfo? (p : Info → Bool) (t : InfoTree) :
    Option (ContextInfo × Info) :=
  (getMaxFst (smallestInfoCandidates p t)).map Prod.snd

/-- The fixed allow-list of hoverable syntax kinds
(`hoverableInfoAt_x3f___lambda__1___closed__1 .. __closed__9`). -/
def hoverableKinds : List SyntaxKind :=
  [.identKind, .strLitKind, .charLitKind, .numLitKind, .scientificLitKind,
   .nameLitKind, .fieldIdxKind, .interpolatedStrLitKind, .interpolatedStrKind]

/-- Embeds `l_Lean_Elab_InfoTree_hoverableInfoAt_x3f___lambda__1` (C lines
2181..2290): both positions must be defined with
`pos ≤ hoverPos < tailPos`; then term-kind info (tag 1) is hoverable iff its
expression is not a synthetic placeholder and its syntax kind is in the
allow-list, field-kind info (tag 3) is always hoverable, and the remaining
kinds never are. -/
def Info.hoverableAt (hoverPos : Nat) (i : Info) : Bool :=
  match i.pos? with
  | none => false
  | some pos =>
    match i.tailPos? with
    | none => false
    | some tailPos =>
      if pos ≤ hoverPos then
        if hoverPos < tailPos then
          match i with
          | .ofTermInfo ti =>
              if ti.expr.isSyntheticPlaceholder then false
              else hoverableKinds.contains i.stx.getKind
          | .ofFieldInfo _ => true
          | .ofTacticInfo _ => false
          | .ofCommandInfo _ => false
        else false
      else false

/-- Embeds `l_Lean_Elab_InfoTree_hoverableInfoAt_x3f` (C lines 2290..2300):
`smallestInfo?` with the hover predicate at the given offset. -/
def InfoTree.hoverableInfoAt? (t : InfoTree) (hoverPos : Nat) :
    Option (ContextInfo × Info) :=
  t.smallestInfo? (fun i => Info.hoverableAt hoverPos i)

/-- Embeds `l_Lean_Elab_InfoTree_smallestTacticStates_tacticLeaves___lambda__1`
(C lines 3174..3215): tactic-kind info (tag 0) whose `pos?` and `tailPos?`
are both defined; every other kind is rejected. -/
def isTacticLeafPred (i : Info) : Bool :=
  match i with
  | .ofTacticInfo _ =>
      match i.pos? with
      | none => false
      | some _ =>
        match i.tailPos? with
        | none => false
        | some _ => true
  | _ => false

/-- Embeds `l_Lean_Elab_InfoTree_smallestTacticStates_tacticLeaves`:
`smallestNodes` with the tactic-leaf predicate. -/
def InfoTree.tacticLeaves (t : InfoTree) : List InfoTree :=
  t.smallestNodes isTacticLeafPred

/-- Embeds `l_List_filterMap___at_..._smallestTacticStates___spec__1` (C lines
3240..3400): keep exactly the leaves of shape
`context ctx (node (ofTacticInfo ti) _)`, producing `(pos, (ctx, ti))` where
`pos` is the info's `pos?` forced with `Option.get!` (panic default `0`). -/
def tacticStatesCandidates (t : InfoTree) : List (Nat × (ContextInfo × TacticInfo)) :=
  t.tacticLeaves.filterMap fun x =>
    match x with
    | .context ctx (.node (.ofTacticInfo ti) _) =>
        some ((Info.ofTacticInfo ti).pos?.get!, (ctx, ti))
    | _ => none

/-- The default element the compiled code passes to the panicking array
accessors while sorting and indexing tactic states
(`l_Array_qpartition_loop___at_..._smallestTacticStates___spec__4___closed__2`
 = `(instInhabitedNat, (instInhabitedContextInfo, instInhabitedTacticInfo))`);
it is only read out of bounds, which the algorithm never does. -/
def defaultTacticCand : Nat × (ContextInfo × TacticInfo) :=
  (0, (⟨0⟩, ⟨0, [], ⟨.other 0, none, none, none, none⟩, 0, []⟩))

/-- In-bounds array swap (`lean_array_swap`; out-of-range indices leave the
array unchanged, a case the algorithm never reaches). -/
def aswap {α : Type} (dflt : α) (as : Array α) (i j : Nat) : Array α :=
  let vi := as.getD i dflt
  let vj := as.getD j dflt
  (as.setD i vj).setD j vi

/-- Embeds `l_Array_qpartition_loop___at_..._smallestTacticStates___spec__4`
(Hoare partition sweep of `Array.qpartition`): while `j < hi`, move elements
below the pivot to the front; finally swap the pivot into place and return its
index.  The structural `fuel` argument stands for the decreasing distance
`hi - j`; the calls below always supply enough fuel, so the fuel-exhausted
case (which returns like the `j ≥ hi` case) is never reached. -/
def qpartitionLoop {α : Type} (lt : α → α → Bool) (dflt : α) (hi : Nat) (pivot : α) :
    Nat → Array α → Nat → Nat → Nat × Array α
  | 0, as, i, _ => (i, aswap dflt as i hi)
  | fuel + 1, as, i, j =>
      if j < hi then
        if lt (as.getD j dflt) pivot then
          qpartitionLoop lt dflt hi pivot fuel (aswap dflt as i j) (i + 1) (j + 1)
        else
          qpartitionLoop lt dflt hi pivot fuel as i (j + 1)
      else (i, aswap dflt as i hi)

/-- The median-of-three pivot selection inlined into
`l_Array_qsort_sort___at_..._smallestTacticStates___spec__3` (C lines
3476..3500: three conditional swaps of `lo`/`mid`/`hi`, then the pivot is the
element at `hi`), followed by the partition sweep starting at `i = j = lo`. -/
def qpartition {α : Type} (lt : α → α → Bool) (dflt : α) (as : Array α) (lo hi : Nat) :
    Nat × Array α :=
  let mid := (lo + hi) / 2
  let as1 := if lt (as.getD mid dflt) (as.getD lo dflt) then aswap dflt as lo mid else as
  let as2 := if lt (as1.getD hi dflt) (as1.getD lo dflt) then aswap dflt as1 lo hi else as1
  let as3 := if lt (as2.getD mid dflt) (as2.getD hi dflt) then aswap dflt as2 mid hi else as2
  let pivot := as3.getD hi dflt
  qpartitionLoop lt dflt hi pivot (hi + 1) as3 lo lo

/-- Embeds `l_Array_qsort_sort___at_..._smallestTacticStates___spec__3`
(C lines 3476..3620): quicksort the range `[low, high]`, recursing on the left
part and looping on the right part of each partition.  The structural `fuel`
argument stands for the decreasing measure `high - low + 1`; since the
partition index always lies in `[low, high]`, the fuel supplied below
suffices and the fuel-exhausted case is never reached. -/
def qsortSort {α : Type} (lt : α → α → Bool) (dflt : α) :
    Nat → Array α → Nat → Nat → Array α
  | 0, as, _, _ => as
  | fuel + 1, as, low, high =>
      if low < high then
        let pr := qpartition lt dflt as low high
        if high ≤ pr.1 then pr.2
        else qsortSort lt dflt fuel (qsortSort lt dflt fuel pr.2 low pr.1) (pr.1 + 1) high
      else as

/-- Embeds `l_Lean_Elab_InfoTree_smallestTacticStates` (C lines 3655..3700):
collect the tactic-state candidates, convert to an array and quicksort it in
the range `[0, size - 1]` by the comparison
`l_Lean_Elab_InfoTree_smallestTacticStates___lambda__1` = `a.fst < b.fst`
(ascending by start position). -/
def InfoTree.smallestTacticStates (t : InfoTree) : Array (Nat × (ContextInfo × TacticInfo)) :=
  let arr := (tacticStatesCandidates t).toArray
  qsortSort (fun a b => decide (a.1 < b.1)) defaultTacticCand arr.size arr 0 (arr.size - 1)

/-- Embeds `l_Array_mapIdxM_map___at_..._goalsAt_x3f___spec__1` together with
its `___lambda__1` (C lines 3788..3930): for each index `i` of the sorted
tactic-state array emit the pair of the leaf's recorded start position and,
when `i + 1 < size`, the start position of leaf `i + 1`; for the final leaf,
instead `getTailPos?` of the tactic info's own syntax with
`canonicalOnly := false` (the C passes the constant `0`), forced with
`Option.get!`.  The structural `fuel` argument is the remaining-length counter
`mapIdxM.map` matches on. -/
def goalsAtRangesLoop (ts : Array (Nat × (ContextInfo × TacticInfo))) :
    Nat → Nat → Array (Nat × Nat) → Array (Nat × Nat)
  | 0, _, acc => acc
  | fuel + 1, i, acc =>
      let c := ts.getD i defaultTacticCand
      let bound :=
        if i + 1 < ts.size then (ts.getD (i + 1) defaultTacticCand).1
        else (Syntax.getTailPos? c.2.2.stx false).get!
      goalsAtRangesLoop ts fuel (i + 1) (acc.push (c.1, bound))

/-- The interval array `goalsAt?` builds from the sorted tactic states (the
`mapIdx` call in `l_Lean_Elab_InfoTree_goalsAt_x3f`, started with the array
size as the remaining-length counter and an empty accumulator). -/
def goalsAtRanges (ts : Array (Nat × (ContextInfo × TacticInfo))) : Array (Nat × Nat) :=
  goalsAtRangesLoop ts ts.size 0 #[]

/-- Embeds `l_Array_findIdx_x3f_loop___rarg` as called by `goalsAt?`: the
first index at or after `i` whose element satisfies `p`.  The structural
`fuel` argument is the size counter the compiled call passes. -/
def findIdxLoop {α : Type} (as : Array α) (p : α → Bool) (dflt : α) :
    Nat → Nat → Option Nat
  | 0, _ => none
  | fuel + 1, i =>
      if i < as.size then
        if p (as.getD i dflt) then some i else findIdxLoop as p dflt fuel (i + 1)
      else none

/-- Embeds `l_Lean_Elab_InfoTree_goalsAt_x3f` (C lines 3960..4060): build the
interval array from the sorted tactic states, find the first interval with
`fst ≤ hoverPos < snd` (`l_Lean_Elab_InfoTree_goalsAt_x3f___lambda__1`), and
return the `(ctx, tacticInfo)` component of the tactic state at that index. -/
def InfoTree.goalsAt? (t : InfoTree) (hoverPos : Nat) : Option (ContextInfo × TacticInfo) :=
  let ts := t.smallestTacticStates
  let ranges := goalsAtRanges ts
  match findIdxLoop ranges (fun r => decide (r.1 ≤ hoverPos) && decide (hoverPos < r.2))
      (0, 0) ranges.size 0 with
  | none => none
  | some i => some (ts.getD i defaultTacticCand).2

mutual
/-- The infos of a tree in pre-order (parent before children, children left to
right); `context` wrappers and `hole`s carry no info. -/
def InfoTree.preInfos : InfoTree → List Info
  | .context _ t => t.preInfos
  | .node i cs => i :: InfoTrees.preInfosL cs
  | .hole _ => []

/-- Pre-order infos of a children sequence. -/
def InfoTrees.preInfosL : InfoTrees → List Info
  | .nil => []
  | .cons t ts => t.preInfos ++ ts.preInfosL
end

mutual
/-- The infos of a tree in post-order (children left to right, then the
parent); `context` wrappers and `hole`s carry no info. -/
def InfoTree.postInfos : InfoTree → List Info
  | .context _ t => t.postInfos
  | .node i cs => InfoTrees.postInfosL cs ++ [i]
  | .hole _ => []

/-- Post-order infos of a children sequence. -/
def InfoTrees.postInfosL : InfoTrees → List Info
  | .nil => []
  | .cons t ts => t.postInfos ++ ts.postInfosL
end

/-- The info at the root of a tree, looking through `context` wrappers. -/
def InfoTree.rootInfo? : InfoTree → Option Info
  | .context _ t => t.rootInfo?
  | .node i _ => some i
  | .hole _ => none

/-! ### Infrastructure lemmas -/

/-- Induction over `InfoTree` with membership hypotheses for the children of a
node. -/
theorem InfoTree.indMem {motive : InfoTree → Prop}
    (hctx : ∀ c t, motive t → motive (.context c t))
    (hnode : ∀ i cs, (∀ t ∈ InfoTrees.toList cs, motive t) → motive (.node i cs))
    (hhole : ∀ m, motive (.hole m)) : ∀ t, motive t := by
  intro t
  induction t using InfoTree.rec
    (motive_2 := fun cs => ∀ t ∈ InfoTrees.toList cs, motive t) with
  | context c t ih => exact hctx c t ih
  | node i cs ih => exact hnode i cs ih
  | hole m => exact hhole m
  | nil =>
      rename_i x hx
      exact absurd hx (by simp [InfoTrees.toList])
  | cons t ts iht ihts =>
      rename_i x hx
      simp only [InfoTrees.toList, List.mem_cons] at hx
      rcases hx with rfl | hx
      · exact iht
      · exact ihts x hx

theorem InfoTrees.mapSmallestNode?_eq (p : Info → Bool) :
    ∀ cs : InfoTrees, InfoTrees.mapSmallestNode? p cs
      = (InfoTrees.toList cs).map (InfoTree.smallestNode? p)
  | .nil => rfl
  | .cons t ts => by
      simp [InfoTrees.mapSmallestNode?, InfoTrees.toList,
        InfoTrees.mapSmallestNode?_eq p ts]

theorem InfoTrees.mapSmallestNodes_eq (p : Info → Bool) :
    ∀ cs : InfoTrees, InfoTrees.mapSmallestNodes p cs
      = (InfoTrees.toList cs).map (InfoTree.smallestNodes p)
  | .nil => rfl
  | .cons t ts => by
      simp [InfoTrees.mapSmallestNodes, InfoTrees.toList,
        InfoTrees.mapSmallestNodes_eq p ts]

theorem InfoTrees.preInfosL_eq :
    ∀ cs : InfoTrees, InfoTrees.preInfosL cs
      = ((InfoTrees.toList cs).map InfoTree.preInfos).flatten
  | .nil => rfl
  | .cons t ts => by
      simp [InfoTrees.preInfosL, InfoTrees.toList, InfoTrees.preInfosL_eq ts]

theorem InfoTrees.postInfosL_eq :
    ∀ cs : InfoTrees, InfoTrees.postInfosL cs
      = ((InfoTrees.toList cs).map InfoTree.postInfos).flatten
  | .nil => rfl
  | .cons t ts => by
      simp [InfoTrees.postInfosL, InfoTrees.toList, InfoTrees.postInfosL_eq ts]

theorem head?_filterMap_eq_findSome? {α β : Type} (f : α → Option β) :
    ∀ l : List α, (l.filterMap f).head? = l.findSome? f
  | [] => rfl
  | a :: l => by
      cases h : f a with
      | none => simp [List.filterMap_cons, List.findSome?_cons, h,
          head?_filterMap_eq_findSome? f l]
      | some b => simp [List.filterMap_cons, List.findSome?_cons, h]

/-- The node case of `smallestNode?`, reformulated: search the children in
order and return the first `some` result; only if every child yields `none`
test the predicate on the node's own info. -/
theorem InfoTree.smallestNode?_node (p : Info → Bool) (i : Info) (cs : InfoTrees) :
    InfoTree.smallestNode? p (.node i cs)
      = match (InfoTrees.toList cs).findSome? (InfoTree.smallestNode? p) with
        | some r => some r
        | none => if p i then some (.node i cs) else none := by
  have hh := head?_filterMap_eq_findSome? (InfoTree.smallestNode? p) (InfoTrees.toList cs)
  rw [InfoTree.smallestNode?, InfoTrees.mapSmallestNode?_eq, List.filterMap_map,
    Function.id_comp]
  cases hfm : (InfoTrees.toList cs).filterMap (InfoTree.smallestNode? p) with
  | nil =>
      have hfs : (InfoTrees.toList cs).findSome? (InfoTree.smallestNode? p) = none := by
        rw [← hh, hfm]; rfl
      rw [hfs]
  | cons r rs =>
      have hfs : (InfoTrees.toList cs).findSome? (InfoTree.smallestNode? p) = some r := by
        rw [← hh, hfm]; rfl
      rw [hfs]

/-- The fold inside `getMaxFst` computes the first element whose first
component is minimal: the result is an element of the sequence, its first
component is a lower bound, and it is the first element whose first component
is at most the result's (strict ties keep the earlier element). -/
theorem foldl_minFst_spec {α : Type} :
    ∀ (l : List (Nat × α)) (a : Nat × α),
      (l.foldl (fun best x => if x.1 < best.1 then x else best) a) ∈ a :: l
      ∧ (∀ x ∈ a :: l,
          (l.foldl (fun best x => if x.1 < best.1 then x else best) a).1 ≤ x.1)
      ∧ (a :: l).find?
            (fun x => decide (x.1 ≤ (l.foldl (fun best x => if x.1 < best.1 then x else best) a).1))
          = some (l.foldl (fun best x => if x.1 < best.1 then x else best) a)
  | [], a => by
      refine ⟨by simp, by simp, ?_⟩
      simp [List.find?_cons]
  | b :: l, a => by
      have IH := foldl_minFst_spec l (if b.1 < a.1 then b else a)
      rw [List.foldl_cons]
      set r := l.foldl (fun best x => if x.1 < best.1 then x else best)
        (if b.1 < a.1 then b else a) with hr
      obtain ⟨hmem, hlb, hfind⟩ := IH
      by_cases hba : b.1 < a.1
      · rw [if_pos hba] at hmem hlb hfind
        have hrb : r.1 ≤ b.1 := hlb b (by simp)
        have hra : ¬ a.1 ≤ r.1 := by
          intro hc
          exact absurd (lt_of_le_of_lt (hc.trans hrb) hba) (lt_irrefl _)
        refine ⟨?_, ?_, ?_⟩
        · rcases List.mem_cons.mp hmem with h | h
          · exact h ▸ List.mem_cons_of_mem _ (List.mem_cons_self _ _)
          · exact List.mem_cons_of_mem _ (List.mem_cons_of_mem _ h)
        · intro x hx
          rcases List.mem_cons.mp hx with h | hx
          · exact h ▸ (hrb.trans hba.le)
          · exact hlb x hx
        · rw [List.find?_cons_of_neg _ (by simpa using hra)]
          exact hfind
      · rw [if_neg hba] at hmem hlb hfind
        have hab : a.1 ≤ b.1 := Nat.le_of_not_lt hba
        refine ⟨?_, ?_, ?_⟩
        · rcases List.mem_cons.mp hmem with h | h
          · exact h ▸ List.mem_cons_self _ _
          · exact List.mem_cons_of_mem _ (List.mem_cons_of_mem _ h)
        · intro x hx
          rcases List.mem_cons.mp hx with h | hx
          · exact h ▸ hlb a (by simp)
          · rcases List.mem_cons.mp hx with h | hx
            · exact h ▸ (hlb a (by simp)).trans hab
            · exact hlb x (List.mem_cons_of_mem _ hx)
        · by_cases har : a.1 ≤ r.1
          · have : (a :: l).find? (fun x => decide (x.1 ≤ r.1)) = some a :=
              List.find?_cons_of_pos _ (by simpa using har)
            have hae : a = r := by
              rw [this] at hfind
              exact Option.some_injective _ hfind
            rw [List.find?_cons_of_pos _ (by simpa using har)]
            exact congrArg some hae
          · have hbr : ¬ b.1 ≤ r.1 := by
              intro hc
              exact har (hab.trans hc)
            rw [List.find?_cons_of_neg _ (by simpa using har),
              List.find?_cons_of_neg _ (by simpa using hbr)]
            rw [List.find?_cons_of_neg _ (by simpa using har)] at hfind
            exact hfind

theorem array_getD_eq_toList_getD {α : Type} (a : Array α) (i : Nat) (d : α) :
    a.getD i d = a.toList.getD i d := by
  rw [Array.getD_eq_get?, Array.getElem?_eq_getElem?_toList, List.getD_eq_getElem?_getD]

/-- The interval the loop of `goalsAt?` emits at index `j`: the leaf's
recorded start position paired with the next leaf's start position, or — for
the final leaf — the non-canonical tail position of its own syntax. -/
def rangeEntry (ts : Array (Nat × (ContextInfo × TacticInfo))) (j : Nat) : Nat × Nat :=
  let c := ts.getD j defaultTacticCand
  (c.1, if j + 1 < ts.size then (ts.getD (j + 1) defaultTacticCand).1
        else (Syntax.getTailPos? c.2.2.stx false).get!)

theorem goalsAtRangesLoop_toList (ts : Array (Nat × (ContextInfo × TacticInfo))) :
    ∀ (fuel i : Nat) (acc : Array (Nat × Nat)),
      (goalsAtRangesLoop ts fuel i acc).toList
        = acc.toList ++ (List.range fuel).map (fun k => rangeEntry ts (i + k))
  | 0, i, acc => by simp [goalsAtRangesLoop]
  | fuel + 1, i, acc => by
      rw [goalsAtRangesLoop, goalsAtRangesLoop_toList ts fuel (i + 1) _,
        Array.push_toList, List.range_succ_eq_map, List.map_cons, List.map_map]
      have harg : ((fun k => rangeEntry ts (i + k)) ∘ Nat.succ)
          = (fun k => rangeEntry ts (i + 1 + k)) := by
        funext k
        show rangeEntry ts (i + (k + 1)) = rangeEntry ts (i + 1 + k)
        refine congrArg _ ?_
        omega
      rw [harg]
      simp [rangeEntry]

theorem goalsAtRanges_toList (ts : Array (Nat × (ContextInfo × TacticInfo))) :
    (goalsAtRanges ts).toList = (List.range ts.size).map (rangeEntry ts) := by
  rw [goalsAtRanges, goalsAtRangesLoop_toList]
  simp

theorem goalsAtRanges_size (ts : Array (Nat × (ContextInfo × TacticInfo))) :
    (goalsAtRanges ts).size = ts.size := by
  rw [Array.size_eq_length_toList, goalsAtRanges_toList]
  simp

theorem goalsAtRanges_getD (ts : Array (Nat × (ContextInfo × TacticInfo))) (i : Nat)
    (h : i < ts.size) :
    (goalsAtRanges ts).getD i (0, 0) = rangeEntry ts i := by
  rw [array_getD_eq_toList_getD, goalsAtRanges_toList, List.getD_eq_getElem?_getD,
    List.getElem?_map]
  simp [List.getElem?_range h]

theorem findIdxLoop_eq_none {α : Type} (as : Array α) (p : α → Bool) (dflt : α)
    (h : ∀ j, j < as.size → p (as.getD j dflt) = false) :
    ∀ (fuel i : Nat), findIdxLoop as p dflt fuel i = none
  | 0, _ => rfl
  | fuel + 1, i => by
      rw [findIdxLoop]
      split
      · next hi =>
          have hp := h i hi
          have hg : as.getD i dflt = as.get ⟨i, hi⟩ := by
            simp [Array.getD, hi]
          rw [hg] at hp
          rw [hp]
          simp only [Bool.false_eq_true, if_false]
          exact findIdxLoop_eq_none as p dflt h fuel (i + 1)
      · rfl

/-- The end of the final interval of `goalsAt?`: the non-canonical
(`canonicalOnly := false`) tail position of the last sorted tactic state's own
syntax, forced with `Option.get!`. -/
def lastTailLookup (ts : Array (Nat × (ContextInfo × TacticInfo))) : Nat :=
  (Syntax.getTailPos? ((ts.getD (ts.size - 1) defaultTacticCand)).2.2.stx false).get!

theorem find?_append_cases {α : Type} (p : α → Bool) :
    ∀ l1 l2 : List α,
      (l1 ++ l2).find? p
        = match l1.find? p with
          | some x => some x
          | none => l2.find? p
  | [], l2 => by simp
  | a :: l1, l2 => by
      by_cases h : p a
      · simp [List.find?_cons_of_pos _ h]
      · simp [List.find?_cons_of_neg _ h, find?_append_cases p l1 l2]

/-- Lifting of `smallestNode?`'s soundness / first-post-order-match property
from the members of a list of trees to the childwise first-`some` search. -/
theorem findSome?_smallestNode?_spec (p : Info → Bool) :
    ∀ L : List InfoTree,
      (∀ t ∈ L,
        (InfoTree.smallestNode? p t = none → ∀ i ∈ t.postInfos, p i = false)
        ∧ (∀ r, InfoTree.smallestNode? p t = some r →
            ∃ i, r.rootInfo? = some i ∧ p i = true ∧ t.postInfos.find? p = some i)) →
      (L.findSome? (InfoTree.smallestNode? p) = none →
          ∀ i ∈ (L.map InfoTree.postInfos).flatten, p i = false)
      ∧ (∀ r, L.findSome? (InfoTree.smallestNode? p) = some r →
          ∃ i, r.rootInfo? = some i ∧ p i = true
            ∧ ((L.map InfoTree.postInfos).flatten).find? p = some i)
  | [], _ => by simp
  | t :: L, H => by
      have Ht := H t (by simp)
      have HL := findSome?_smallestNode?_spec p L (fun u hu => H u (List.mem_cons_of_mem _ hu))
      constructor
      · intro hnone i hi
        rw [List.findSome?_cons] at hnone
        rcases hst : InfoTree.smallestNode? p t with _ | r
        · rw [hst] at hnone
          simp only [List.map_cons, List.flatten_cons, List.mem_append] at hi
          rcases hi with hi | hi
          · exact Ht.1 hst i hi
          · exact HL.1 hnone i hi
        · rw [hst] at hnone
          cases hnone
      · intro r hsome
        rw [List.findSome?_cons] at hsome
        rcases hst : InfoTree.smallestNode? p t with _ | r0
        · rw [hst] at hsome
          obtain ⟨i, h1, h2, h3⟩ := HL.2 r hsome
          refine ⟨i, h1, h2, ?_⟩
          have hpre : (t.postInfos).find? p = none :=
            List.find?_eq_none.mpr (fun x hx => by simp [Ht.1 hst x hx])
          rw [List.map_cons, List.flatten_cons, find?_append_cases, hpre]
          exact h3
        · rw [hst] at hsome
          obtain rfl : r0 = r := by
            simpa using hsome
          obtain ⟨i, h1, h2, h3⟩ := Ht.2 r0 hst
          refine ⟨i, h1, h2, ?_⟩
          rw [List.map_cons, List.flatten_cons, find?_append_cases, h3]

/-- Soundness and completeness of `smallestNode?` with respect to the
post-order (children-first, leftmost-first) traversal: a `none` result means
no info in the tree satisfies the predicate, and a `some` result carries —
under its `context` wrappers — exactly the first post-order info satisfying
the predicate. -/
theorem smallestNode?_spec (p : Info → Bool) :
    ∀ t : InfoTree,
      (InfoTree.smallestNode? p t = none → ∀ i ∈ t.postInfos, p i = false)
      ∧ (∀ r, InfoTree.smallestNode? p t = some r →
          ∃ i, r.rootInfo? = some i ∧ p i = true ∧ t.postInfos.find? p = some i) := by
  intro t
  induction t using InfoTree.indMem with
  | hctx c t ih =>
      constructor
      · intro hnone i hi
        rw [InfoTree.smallestNode?] at hnone
        rw [InfoTree.postInfos] at hi
        rcases hmap : InfoTree.smallestNode? p t with _ | r
        · exact ih.1 hmap i hi
        · rw [hmap] at hnone
          cases hnone
      · intro r hsome
        rw [InfoTree.smallestNode?] at hsome
        rcases hmap : InfoTree.smallestNode? p t with _ | r0
        · rw [hmap] at hsome
          cases hsome
        · rw [hmap] at hsome
          obtain rfl : r = .context c r0 := by
            simpa using hsome.symm
          obtain ⟨i, hri, hpi, hfind⟩ := ih.2 r0 hmap
          exact ⟨i, by simpa [InfoTree.rootInfo?] using hri, hpi,
            by simpa [InfoTree.postInfos] using hfind⟩
  | hnode i cs ih =>
      have HL := findSome?_smallestNode?_spec p (InfoTrees.toList cs) ih
      constructor
      · intro hnone j hj
        rw [InfoTree.smallestNode?_node] at hnone
        rw [InfoTree.postInfos, InfoTrees.postInfosL_eq] at hj
        rcases hfs : (InfoTrees.toList cs).findSome? (InfoTree.smallestNode? p) with _ | r
        · rw [hfs] at hnone
          have hpi : p i = false := by
            by_cases h : p i
            · rw [if_pos h] at hnone
              cases hnone
            · simpa using h
          simp only [List.mem_append, List.mem_singleton] at hj
          rcases hj with hj | rfl
          · exact HL.1 hfs j hj
          · exact hpi
        · rw [hfs] at hnone
          cases hnone
      · intro r hsome
        rw [InfoTree.smallestNode?_node] at hsome
        rcases hfs : (InfoTrees.toList cs).findSome? (InfoTree.smallestNode? p) with _ | r0
        · rw [hfs] at hsome
          by_cases h : p i
          · rw [if_pos h] at hsome
            obtain rfl : r = .node i cs := by
              simpa using hsome.symm
            refine ⟨i, by simp [InfoTree.rootInfo?], h, ?_⟩
            rw [InfoTree.postInfos, InfoTrees.postInfosL_eq, find?_append_cases]
            have hpre : ((InfoTrees.toList cs).map InfoTree.postInfos).flatten.find? p = none :=
              List.find?_eq_none.mpr (fun x hx => by simp [HL.1 hfs x hx])
            rw [hpre]
            simp [List.find?_cons_of_pos _ h]
          · rw [if_neg h] at hsome
            cases hsome
        · rw [hfs] at hsome
          obtain rfl : r0 = r := by
            simpa using hsome
          obtain ⟨j, h1, h2, h3⟩ := HL.2 r0 hfs
          refine ⟨j, h1, h2, ?_⟩
          rw [InfoTree.postInfos, InfoTrees.postInfosL_eq, find?_append_cases, h3]
  | hhole m =>
      constructor
      · intro _ i hi
        rw [InfoTree.postInfos] at hi
        cases hi
      · intro r hr
        rw [InfoTree.smallestNode?] at hr
        cases hr

/-- If every recorded start position is at most the final interval's end and
the offset is at or past that end, no interval matches and `goalsAt?` returns
`none`. -/
theorem goalsAt?_eq_none_of_pastEnd (t : InfoTree) (o : Nat)
    (hb : ∀ j, j < (InfoTree.smallestTacticStates t).size →
      ((InfoTree.smallestTacticStates t).getD j defaultTacticCand).1
        ≤ lastTailLookup (InfoTree.smallestTacticStates t))
    (ho : lastTailLookup (InfoTree.smallestTacticStates t) ≤ o) :
    InfoTree.goalsAt? t o = none := by
  have hnone : findIdxLoop (goalsAtRanges (InfoTree.smallestTacticStates t))
      (fun r => decide (r.1 ≤ o) && decide (o < r.2)) (0, 0)
      (goalsAtRanges (InfoTree.smallestTacticStates t)).size 0 = none := by
    apply findIdxLoop_eq_none
    intro j hj
    rw [goalsAtRanges_size] at hj
    rw [goalsAtRanges_getD _ j hj, rangeEntry]
    by_cases hj1 : j + 1 < (InfoTree.smallestTacticStates t).size
    · have hle : ((InfoTree.smallestTacticStates t).getD (j + 1) defaultTacticCand).1
          ≤ lastTailLookup (InfoTree.smallestTacticStates t) := hb (j + 1) hj1
      have hlt : ¬ (o < ((InfoTree.smallestTacticStates t).getD (j + 1) defaultTacticCand).1) :=
        Nat.not_lt.mpr (hle.trans ho)
      rw [Array.getD_eq_get?] at hlt
      simp [hj1]
      exact fun _ => Nat.not_lt.mp hlt
    · have hj' : j = (InfoTree.smallestTacticStates t).size - 1 := by omega
      have hlast : ¬ (o < lastTailLookup (InfoTree.smallestTacticStates t)) :=
        Nat.not_lt.mpr ho
      subst hj'
      rw [lastTailLookup, Array.getD_eq_get?] at hlast
      simp [hj1]
      exact fun _ => Nat.not_lt.mp hlast
  rw [InfoTree.goalsAt?]
  simp only [hnone]

/-! ### Concrete sample data used by counterexamples and witnesses -/

/-- The always-true predicate (matches every info). -/
def alwaysTrue : Info → Bool := fun _ => true

/-- The always-false predicate (matches no info). -/
def neverTrue : Info → Bool := fun _ => false

def exCtxA : ContextInfo := ⟨1⟩

def exCtxB : ContextInfo := ⟨2⟩

def exCtxC : ContextInfo := ⟨3⟩

/-- A command-kind info on synthetic syntax, used as a non-matching root. -/
def exCmdInfo : Info := .ofCommandInfo ⟨0, ⟨.other 0, none, none, none, none⟩⟩

/-- A field-access info spanning `[5, 10)`. -/
def exFieldInfo : Info :=
  .ofFieldInfo ⟨0, ⟨false⟩, 0, ⟨.identKind, some 5, some 10, some 5, some 10⟩⟩

/-- The single `Node` of the locate-info scenario: info spanning `[5, 10)`
with one `Leaf` child, not wrapped in a `Context`. -/
def exBareNodeTree : InfoTree := .node exFieldInfo (.cons (.hole 0) .nil)

/-- The same node wrapped in a `Context`. -/
def exWrappedTree : InfoTree := .context exCtxA exBareNodeTree

/-- A field-access info spanning `[0, 5)` (width 5). -/
def exWideInfo : Info :=
  .ofFieldInfo ⟨1, ⟨false⟩, 0, ⟨.identKind, some 0, some 5, some 0, some 5⟩⟩

/-- A field-access info spanning `[1, 3)` (width 2). -/
def exNarrowInfo : Info :=
  .ofFieldInfo ⟨2, ⟨false⟩, 0, ⟨.identKind, some 1, some 3, some 1, some 3⟩⟩

/-- Two deepest siblings of widths 5 and 2, each wrapped in a `Context`. -/
def exWidthTree : InfoTree :=
  .node exCmdInfo
    (.cons (.context exCtxA (.node exWideInfo .nil))
    (.cons (.context exCtxB (.node exNarrowInfo .nil)) .nil))

/-- A field-access info whose syntax has no positions at all. -/
def exNoPosInfo : Info :=
  .ofFieldInfo ⟨3, ⟨false⟩, 0, ⟨.other 9, none, none, none, none⟩⟩

/-- A field-access info spanning `[0, 3)` (width 3). -/
def exSmallSpanInfo : Info :=
  .ofFieldInfo ⟨4, ⟨false⟩, 0, ⟨.identKind, some 0, some 3, some 0, some 3⟩⟩

/-- Two deepest siblings: one with no position data at all, one spanning
`[0, 3)`. -/
def exMissingTree : InfoTree :=
  .node exCmdInfo
    (.cons (.context exCtxA (.node exNoPosInfo .nil))
    (.cons (.context exCtxB (.node exSmallSpanInfo .nil)) .nil))

/-- A tactic info spanning `[0, 5)`. -/
def exTacA : TacticInfo := ⟨0, [], ⟨.other 1, some 0, some 5, some 0, some 5⟩, 0, []⟩

/-- A tactic info spanning `[5, 10)`. -/
def exTacB : TacticInfo := ⟨0, [], ⟨.other 2, some 5, some 10, some 5, some 10⟩, 0, []⟩

/-- Two sibling tactic-state nodes with ranges `[0, 5)` and `[5, 10)`, each
wrapped in a `Context`. -/
def exTwoTacTree : InfoTree :=
  .node exCmdInfo
    (.cons (.context exCtxA (.node (.ofTacticInfo exTacA) .nil))
    (.cons (.context exCtxB (.node (.ofTacticInfo exTacB) .nil)) .nil))

/-- Two sibling tactic-state nodes with ranges `[0, 5)` and `[5, 10)`, not
wrapped in `Context` constructors. -/
def exBareTwoTacTree : InfoTree :=
  .node exCmdInfo
    (.cons (.node (.ofTacticInfo exTacA) .nil)
    (.cons (.node (.ofTacticInfo exTacB) .nil) .nil))

/-- A tactic info whose syntax has canonical range `[0, 10)` but whose
non-canonical (`canonical_only = false`) tail position is `99`. -/
def exTacRaw : TacticInfo := ⟨0, [], ⟨.other 5, some 0, some 10, some 0, some 99⟩, 0, []⟩

/-- A single context-wrapped tactic-state node carrying `exTacRaw`. -/
def exRawTailTree : InfoTree := .context exCtxC (.node (.ofTacticInfo exTacRaw) .nil)

def exCmdInfo1 : Info := .ofCommandInfo ⟨1, ⟨.other 1, none, none, none, none⟩⟩

def exCmdInfo2 : Info := .ofCommandInfo ⟨2, ⟨.other 2, none, none, none, none⟩⟩

/-- A root node (info `exCmdInfo1`) with a single child node (info
`exCmdInfo2`): in pre-order the root's info comes first, in post-order the
child's. -/
def exPreTree : InfoTree := .node exCmdInfo1 (.cons (.node exCmdInfo2 .nil) .nil)

/-! ### Claim C1 -/

/-- C1, counterexample: on a tree with two deepest context-wrapped matches of
widths 5 (`exWideInfo`, first) and 2 (`exNarrowInfo`, second), `smallestInfo?`
returns the narrower second element, not the wider first one — the selection
lambda compiled into `Array.getMax?` prefers the narrower element, refuting
the claim that it selects the largest width. -/
theorem C1_counterexample :
    InfoTree.smallestInfo? alwaysTrue exWidthTree = some (exCtxB, exNarrowInfo)
    ∧ Info.candWidth exWideInfo = 5
    ∧ Info.candWidth exNarrowInfo = 2
    ∧ some (exCtxB, exNarrowInfo) ≠ some (exCtxA, exWideInfo) := by
  decide

/-- C1, amended: after collecting the deepest matches and their widths,
`smallestInfo?` selects the element with the smallest width, breaking ties by
first occurrence (the first element whose width is at most the selected one is
the selected one itself), and returns its `(context, info)` component. -/
theorem C1_min_width_selection (p : Info → Bool) (t : InfoTree)
    (hne : smallestInfoCandidates p t ≠ []) :
    ∃ m, m ∈ smallestInfoCandidates p t
      ∧ (∀ x ∈ smallestInfoCandidates p t, m.1 ≤ x.1)
      ∧ (smallestInfoCandidates p t).find? (fun x => decide (x.1 ≤ m.1)) = some m
      ∧ InfoTree.smallestInfo? p t = some m.2 := by
  rcases hc : smallestInfoCandidates p t with _ | ⟨a, l⟩
  · exact absurd hc hne
  · obtain ⟨h1, h2, h3⟩ := foldl_minFst_spec l a
    refine ⟨l.foldl (fun best x => if x.1 < best.1 then x else best) a,
      h1, h2, h3, ?_⟩
    rw [InfoTree.smallestInfo?, hc, getMaxFst]
    rfl

/-- C1, witness for the amended theorem at `exWidthTree`. -/
theorem C1_min_width_selection_witness :
    ∃ m, m ∈ smallestInfoCandidates alwaysTrue exWidthTree
      ∧ (∀ x ∈ smallestInfoCandidates alwaysTrue exWidthTree, m.1 ≤ x.1)
      ∧ (smallestInfoCandidates alwaysTrue exWidthTree).find?
          (fun x => decide (x.1 ≤ m.1)) = some m
      ∧ InfoTree.smallestInfo? alwaysTrue exWidthTree = some m.2 :=
  C1_min_width_selection alwaysTrue exWidthTree (by decide)

/-! ### Claim C2 -/

/-- C2, counterexample: on two tactic leaves with ranges `[0, 5)` and
`[5, 10)`, the claim's interval assignment `[tailPos(leaf_i),
tailPos(leaf_{i+1}))` would leave offset `3` (below the first tail position
`5`) outside every interval, so the claimed `goalsAt?` would return `none`;
the code returns the first leaf, because the intervals it actually builds
start at the leaves' start positions. -/
theorem C2_counterexample :
    InfoTree.goalsAt? exTwoTacTree 3 = some (exCtxA, exTacA)
    ∧ Info.tailPos? (.ofTacticInfo exTacA) = some 5 := by
  decide

/-- C2, amended: for the sorted array of tactic-state leaves, the half-open
interval assigned to leaf `i` is `[pos(leaf_i), pos(leaf_{i+1}))`, and the
last leaf's interval is `[pos(leaf_last), tailPos(leaf_last))` (tail position
taken with `canonical_only = false`); consequently, whenever every leaf's
start position is at most the last leaf's tail position, every offset at or
past that tail position makes the query return `none`. -/
theorem C2_goalsAt_intervals :
    (∀ (t : InfoTree) (i : Nat), i < (InfoTree.smallestTacticStates t).size →
      (goalsAtRanges (InfoTree.smallestTacticStates t)).getD i (0, 0)
        = (((InfoTree.smallestTacticStates t).getD i defaultTacticCand).1,
           if i + 1 < (InfoTree.smallestTacticStates t).size then
             ((InfoTree.smallestTacticStates t).getD (i + 1) defaultTacticCand).1
           else (Syntax.getTailPos?
             ((InfoTree.smallestTacticStates t).getD i defaultTacticCand).2.2.stx
               false).get!))
    ∧ (∀ (t : InfoTree) (o : Nat),
        (∀ j, j < (InfoTree.smallestTacticStates t).size →
          ((InfoTree.smallestTacticStates t).getD j defaultTacticCand).1
            ≤ lastTailLookup (InfoTree.smallestTacticStates t)) →
        lastTailLookup (InfoTree.smallestTacticStates t) ≤ o →
        InfoTree.goalsAt? t o = none) := by
  constructor
  · intro t i h
    rw [goalsAtRanges_getD _ i h]
    rfl
  · intro t o hb ho
    exact goalsAt?_eq_none_of_pastEnd t o hb ho

/-- C2, witness for the amended theorem at `exTwoTacTree`: the final leaf's
interval and the `none` answer at offset `12`. -/
theorem C2_goalsAt_intervals_witness :
    (goalsAtRanges (InfoTree.smallestTacticStates exTwoTacTree)).getD 1 (0, 0)
      = (((InfoTree.smallestTacticStates exTwoTacTree).getD 1 defaultTacticCand).1,
         if 1 + 1 < (InfoTree.smallestTacticStates exTwoTacTree).size then
           ((InfoTree.smallestTacticStates exTwoTacTree).getD (1 + 1) defaultTacticCand).1
         else (Syntax.getTailPos?
           ((InfoTree.smallestTacticStates exTwoTacTree).getD 1 defaultTacticCand).2.2.stx
             false).get!)
    ∧ InfoTree.goalsAt? exTwoTacTree 12 = none :=
  ⟨C2_goalsAt_intervals.1 exTwoTacTree 1 (by decide),
   C2_goalsAt_intervals.2 exTwoTacTree 12 (by decide) (by decide)⟩

/-! ### Claim C3 -/

/-- C3, counterexample: `smallestNodes` on a `Context` wrapper returns the
found node rewrapped in the `Context` constructor, not the bare node the
claim asserts. -/
theorem C3_counterexample :
    InfoTree.smallestNodes alwaysTrue (.context exCtxA (.node exCmdInfo1 .nil))
      = [.context exCtxA (.node exCmdInfo1 .nil)]
    ∧ (InfoTree.context exCtxA (.node exCmdInfo1 .nil)) ≠ (.node exCmdInfo1 .nil) := by
  decide

/-- C3, amended: when the all-results search passes through a
`Context(ctx, child)` wrapper it unwraps into the child, and every element of
the returned list is rewrapped in the `Context` constructor (exactly as
`find_first` does). -/
theorem C3_context_rewraps (p : Info → Bool) (c : ContextInfo) (t : InfoTree) :
    InfoTree.smallestNodes p (.context c t)
      = (InfoTree.smallestNodes p t).map (InfoTree.context c)
    ∧ ∀ r ∈ InfoTree.smallestNodes p (.context c t),
        ∃ u, r = InfoTree.context c u ∧ u ∈ InfoTree.smallestNodes p t := by
  constructor
  · rw [InfoTree.smallestNodes]
  · intro r hr
    rw [InfoTree.smallestNodes] at hr
    obtain ⟨u, hu, rfl⟩ := List.mem_map.mp hr
    exact ⟨u, rfl, hu⟩

/-- C3, witness for the amended theorem at a concrete wrapped node. -/
theorem C3_context_rewraps_witness :
    ∃ u, (InfoTree.context exCtxA (.node exCmdInfo1 .nil)) = InfoTree.context exCtxA u
      ∧ u ∈ InfoTree.smallestNodes alwaysTrue (.node exCmdInfo1 .nil) :=
  (C3_context_rewraps alwaysTrue exCtxA (.node exCmdInfo1 .nil)).2
    (.context exCtxA (.node exCmdInfo1 .nil)) (by decide)

/-! ### Claim C4 -/

/-- C4, counterexample: for the single bare `Node` with range `[5, 10)` and a
`Leaf` child, the locate-info query at offset `7` returns `none`, even though
the node's info is in range and satisfies the hover predicate — the
post-search filter of `smallestInfo?` keeps only results wrapped in a
`Context` constructor, refuting the claim. -/
theorem C4_counterexample :
    InfoTree.hoverableInfoAt? exBareNodeTree 7 = none
    ∧ Info.hoverableAt 7 exFieldInfo = true
    ∧ Info.pos? exFieldInfo = some 5
    ∧ Info.tailPos? exFieldInfo = some 10 := by
  decide

/-- C4, amended: for the same node wrapped in a `Context` constructor (the
shape the post-search filter requires), the locate-info query at offset `7`
returns `some (context, info)` of that node, the `Leaf` contributing
nothing. -/
theorem C4_wrapped_node_found :
    InfoTree.hoverableInfoAt? exWrappedTree 7 = some (exCtxA, exFieldInfo) := by
  decide

/-! ### Claim C5 -/

/-- C5, counterexample: with the always-true predicate on a tree whose two
deepest matches are a node with no position data and a node of width 3, the
node with the missing bounds is not excluded: its width silently defaults to
`0` and it even wins the minimum-width ranking, corrupting the comparison. -/
theorem C5_counterexample :
    InfoTree.smallestInfo? alwaysTrue exMissingTree = some (exCtxA, exNoPosInfo)
    ∧ Info.pos? exNoPosInfo = none
    ∧ Info.tailPos? exNoPosInfo = none
    ∧ Info.candWidth exNoPosInfo = 0
    ∧ Info.candWidth exSmallSpanInfo = 3 := by
  decide

/-- C5, amended: a missing bound is silently replaced by the panic default
`0` (`Option.get!` on `none`) inside the width subtraction — a node missing
its tail position gets width `0`, one missing only its start position gets
width `tailPos - 0` — and a deepest match with such defaulted width still
enters the ranking instead of failing or being filtered out. -/
theorem C5_missing_bound_defaults :
    (∀ i : Info, Info.tailPos? i = none → Info.candWidth i = 0)
    ∧ (∀ i : Info, Info.pos? i = none → Info.candWidth i = (Info.tailPos? i).get!)
    ∧ (∀ (p : Info → Bool) (t : InfoTree) (c : ContextInfo) (i : Info) (cs : InfoTrees),
        InfoTree.context c (.node i cs) ∈ InfoTree.smallestNodes p t →
        (Info.candWidth i, (c, i)) ∈ smallestInfoCandidates p t) := by
  refine ⟨?_, ?_, ?_⟩
  · intro i h
    rw [Info.candWidth, h]
    have h0 : (none : Option Nat).get! = 0 := rfl
    rw [h0]
    exact Nat.zero_sub _
  · intro i h
    rw [Info.candWidth, h]
    have h0 : (none : Option Nat).get! = 0 := rfl
    rw [h0]
    exact Nat.sub_zero _
  · intro p t c i cs h
    exact List.mem_filterMap.mpr ⟨_, h, rfl⟩

/-- C5, witness for the amended theorem: the no-position node of
`exMissingTree` gets width `0` and enters the candidate list. -/
theorem C5_missing_bound_defaults_witness :
    Info.candWidth exNoPosInfo = 0
    ∧ (Info.candWidth exNoPosInfo, (exCtxA, exNoPosInfo))
        ∈ smallestInfoCandidates alwaysTrue exMissingTree :=
  ⟨C5_missing_bound_defaults.1 exNoPosInfo rfl,
   C5_missing_bound_defaults.2.2 alwaysTrue exMissingTree exCtxA exNoPosInfo .nil
     (by decide)⟩

/-! ### Claim C6 -/

/-- C6, counterexample: the tail-position lookup that closes the final
interval inside `goalsAt?` passes `canonical_only = false`: on a tactic leaf
whose canonical tail position is `10` but whose non-canonical tail position is
`99`, the query at offset `50` (far past the canonical tail) still returns the
leaf, which would be impossible if every extraction used
`canonical_only = true`. -/
theorem C6_counterexample :
    InfoTree.goalsAt? exRawTailTree 50 = some (exCtxC, exTacRaw)
    ∧ Syntax.getTailPos? (Info.stx (.ofTacticInfo exTacRaw)) true = some 10
    ∧ Syntax.getTailPos? (Info.stx (.ofTacticInfo exTacRaw)) false = some 99 := by
  decide

/-- C6, amended: `Info.pos?` and `Info.tailPos?` pass
`canonical_only = true` to the position accessors (synthetic syntax yields
`none`), but the tail-position lookup that closes the final interval inside
`goalsAt?` passes `canonical_only = false` and can observe non-canonical
positions. -/
theorem C6_canonical_positions :
    (∀ i : Info, (Info.stx i).posOrig = none → Info.pos? i = none)
    ∧ (∀ i : Info, (Info.stx i).tailPosOrig = none → Info.tailPos? i = none)
    ∧ InfoTree.goalsAt? exRawTailTree 50 = some (exCtxC, exTacRaw) := by
  refine ⟨?_, ?_, by decide⟩
  · intro i h
    rw [Info.pos?, Syntax.getPos?]
    simpa using h
  · intro i h
    rw [Info.tailPos?, Syntax.getTailPos?]
    simpa using h

/-- C6, witness for the amended theorem at a synthetic-syntax info. -/
theorem C6_canonical_positions_witness :
    Info.pos? exCmdInfo = none
    ∧ Info.tailPos? exCmdInfo = none
    ∧ InfoTree.goalsAt? exRawTailTree 50 = some (exCtxC, exTacRaw) :=
  ⟨C6_canonical_positions.1 exCmdInfo rfl,
   C6_canonical_positions.2.1 exCmdInfo rfl,
   C6_canonical_positions.2.2⟩

/-! ### Claim C7 -/

/-- C7, counterexample: with the always-true predicate on a root node with a
single child node, `smallestNode?` returns the child, yet the root's info
satisfies the predicate and appears strictly earlier in the pre-order,
leftmost-first traversal — refuting the claim that no earlier pre-order node
also satisfies the predicate. -/
theorem C7_counterexample :
    InfoTree.smallestNode? alwaysTrue exPreTree = some (.node exCmdInfo2 .nil)
    ∧ (InfoTree.preInfos exPreTree).find? alwaysTrue = some exCmdInfo1
    ∧ exCmdInfo1 ≠ exCmdInfo2 := by
  decide

/-- C7, amended: if `smallestNode?` returns `some node`, then the predicate
holds on that node's info once unwrapped past any `Context` wrappers, and no
node appearing earlier in a post-order (children-first), leftmost-first
traversal also satisfies the predicate — the found info is the first
post-order info satisfying it. -/
theorem C7_first_postorder_match (p : Info → Bool) (t r : InfoTree)
    (h : InfoTree.smallestNode? p t = some r) :
    ∃ i, r.rootInfo? = some i ∧ p i = true
      ∧ (InfoTree.postInfos t).find? p = some i :=
  (smallestNode?_spec p t).2 r h

/-- C7, witness for the amended theorem at `exWrappedTree`. -/
theorem C7_first_postorder_match_witness :
    ∃ i, exWrappedTree.rootInfo? = some i ∧ alwaysTrue i = true
      ∧ (InfoTree.postInfos exWrappedTree).find? alwaysTrue = some i :=
  C7_first_postorder_match alwaysTrue exWrappedTree exWrappedTree (by decide)

/-! ### Claim C8 -/

/-- C8, confirmed: the recursive contract of `smallestNode?` — on
`Context(ctx, child)` it recurses into the child, propagates `none` unchanged
and rewraps a `some` result in the `Context` constructor; on
`Node(info, children)` it searches the children in order and returns the
first `some` child result, and only if every child yields `none` does it test
the predicate on the node's own info, returning the whole node unchanged on
success and `none` otherwise; on a `Leaf` it always returns `none`. -/
theorem C8_recursive_contract :
    (∀ (p : Info → Bool) (c : ContextInfo) (t : InfoTree),
        InfoTree.smallestNode? p t = none →
        InfoTree.smallestNode? p (.context c t) = none)
    ∧ (∀ (p : Info → Bool) (c : ContextInfo) (t r : InfoTree),
        InfoTree.smallestNode? p t = some r →
        InfoTree.smallestNode? p (.context c t) = some (.context c r))
    ∧ (∀ (p : Info → Bool) (i : Info) (cs : InfoTrees),
        InfoTree.smallestNode? p (.node i cs)
          = match (InfoTrees.toList cs).findSome? (InfoTree.smallestNode? p) with
            | some r => some r
            | none => if p i then some (.node i cs) else none)
    ∧ (∀ (p : Info → Bool) (m : Nat), InfoTree.smallestNode? p (.hole m) = none) := by
  refine ⟨?_, ?_, ?_, ?_⟩
  · intro p c t h
    rw [InfoTree.smallestNode?, h]
    rfl
  · intro p c t r h
    rw [InfoTree.smallestNode?, h]
    rfl
  · intro p i cs
    exact InfoTree.smallestNode?_node p i cs
  · intro p m
    rfl

/-- C8, witness: the contract applied at concrete trees — `none` propagation
through a wrapper and rewrapping of a found node. -/
theorem C8_recursive_contract_witness :
    InfoTree.smallestNode? neverTrue (.context exCtxA (.hole 0)) = none
    ∧ InfoTree.smallestNode? alwaysTrue (.context exCtxA exBareNodeTree)
        = some (.context exCtxA exBareNodeTree) :=
  ⟨C8_recursive_contract.1 neverTrue exCtxA (.hole 0) rfl,
   C8_recursive_contract.2.1 alwaysTrue exCtxA exBareNodeTree exBareNodeTree (by decide)⟩

/-! ### Claim C9 -/

/-- C9, confirmed: the hover predicate returns `true` iff both positions are
defined with `pos ≤ offset < tailPos` and, additionally, term-kind info
carries an expression that is not a synthetic placeholder and a syntax kind
in the fixed allow-list, field-access info is always hoverable when in range,
and every other kind never is; in particular the predicate is false for every
kind when the offset lies outside `[pos, tailPos)`. -/
theorem C9_hoverable_iff (o : Nat) (i : Info) :
    Info.hoverableAt o i = true ↔
      ((∃ pv, Info.pos? i = some pv ∧ pv ≤ o)
        ∧ (∃ tv, Info.tailPos? i = some tv ∧ o < tv)
        ∧ (match i with
           | .ofTermInfo ti => ti.expr.isSyntheticPlaceholder = false
               ∧ hoverableKinds.contains (Syntax.getKind (Info.stx i)) = true
           | .ofFieldInfo _ => True
           | .ofTacticInfo _ => False
           | .ofCommandInfo _ => False)) := by
  cases i with
  | ofTermInfo ti =>
      constructor
      · intro h
        rw [Info.hoverableAt] at h
        rcases hp : Info.pos? (Info.ofTermInfo ti) with _ | pv
        all_goals simp only [hp] at h
        · cases h
        · rcases htp : Info.tailPos? (Info.ofTermInfo ti) with _ | tv
          all_goals simp only [htp] at h
          · cases h
          · by_cases h1 : pv ≤ o
            · rw [if_pos h1] at h
              by_cases h2 : o < tv
              · rw [if_pos h2] at h
                by_cases h3 : ti.expr.isSyntheticPlaceholder
                · rw [if_pos h3] at h
                  cases h
                · rw [if_neg h3] at h
                  exact ⟨⟨pv, rfl, h1⟩, ⟨tv, rfl, h2⟩, by simpa using h3, h⟩
              · rw [if_neg h2] at h
                cases h
            · rw [if_neg h1] at h
              cases h
      · rintro ⟨⟨pv, hp, h1⟩, ⟨tv, htp, h2⟩, hs, hk⟩
        rw [Info.hoverableAt]
        simp only [hp, htp]
        rw [if_pos h1, if_pos h2, if_neg (by simp [hs])]
        exact hk
  | ofFieldInfo f =>
      constructor
      · intro h
        rw [Info.hoverableAt] at h
        rcases hp : Info.pos? (Info.ofFieldInfo f) with _ | pv
        all_goals simp only [hp] at h
        · cases h
        · rcases htp : Info.tailPos? (Info.ofFieldInfo f) with _ | tv
          all_goals simp only [htp] at h
          · cases h
          · by_cases h1 : pv ≤ o
            · rw [if_pos h1] at h
              by_cases h2 : o < tv
              · exact ⟨⟨pv, rfl, h1⟩, ⟨tv, rfl, h2⟩, trivial⟩
              · rw [if_neg h2] at h
                cases h
            · rw [if_neg h1] at h
              cases h
      · rintro ⟨⟨pv, hp, h1⟩, ⟨tv, htp, h2⟩, -⟩
        rw [Info.hoverableAt]
        simp only [hp, htp]
        rw [if_pos h1, if_pos h2]
  | ofTacticInfo ti =>
      constructor
      · intro h
        exfalso
        rw [Info.hoverableAt] at h
        rcases hp : Info.pos? (Info.ofTacticInfo ti) with _ | pv
        all_goals simp only [hp] at h
        · cases h
        · rcases htp : Info.tailPos? (Info.ofTacticInfo ti) with _ | tv
          all_goals simp only [htp] at h
          · cases h
          · by_cases h1 : pv ≤ o
            · rw [if_pos h1] at h
              by_cases h2 : o < tv
              · rw [if_pos h2] at h
                cases h
              · rw [if_neg h2] at h
                cases h
            · rw [if_neg h1] at h
              cases h
      · rintro ⟨-, -, h3⟩
        cases h3
  | ofCommandInfo ci =>
      constructor
      · intro h
        exfalso
        rw [Info.hoverableAt] at h
        rcases hp : Info.pos? (Info.ofCommandInfo ci) with _ | pv
        all_goals simp only [hp] at h
        · cases h
        · rcases htp : Info.tailPos? (Info.ofCommandInfo ci) with _ | tv
          all_goals simp only [htp] at h
          · cases h
          · by_cases h1 : pv ≤ o
            · rw [if_pos h1] at h
              by_cases h2 : o < tv
              · rw [if_pos h2] at h
                cases h
              · rw [if_neg h2] at h
                cases h
            · rw [if_neg h1] at h
              cases h
      · rintro ⟨-, -, h3⟩
        cases h3

/-! ### Claim C10 -/

/-- C10, counterexample: with the two sibling tactic-state `Node`s taken
literally (no `Context` wrappers), the goal query at offset `7` returns
`none`, not the second sibling's info — the filter inside
`smallestTacticStates` keeps only context-wrapped tactic nodes — even though
both infos satisfy the tactic-leaf predicate. -/
theorem C10_counterexample :
    InfoTree.goalsAt? exBareTwoTacTree 7 = none
    ∧ isTacticLeafPred (.ofTacticInfo exTacA) = true
    ∧ isTacticLeafPred (.ofTacticInfo exTacB) = true := by
  decide

/-- C10, amended: for the two sibling tactic-state nodes with disjoint ranges
`[0, 5)` and `[5, 10)`, each wrapped in a `Context` constructor (the shape
the collection filter requires), the goal query at offset `7` returns the
second sibling's `(context, tacticInfo)` and the query at offset `12` returns
`none`. -/
theorem C10_wrapped_siblings :
    InfoTree.goalsAt? exTwoTacTree 7 = some (exCtxB, exTacB)
    ∧ InfoTree.goalsAt? exTwoTacTree 12 = none := by
  decide

end InfoUtils
